import Mathlib

/-!
Shallow embedding of the compound boolean-predicate evaluation core found in
internal/core/src/exec/expression/ConjunctExpr.h (milvus).

Row-bitmaps are `List Bool`: one bit per row of the current batch, `true`
meaning the predicate is satisfied for that row.  Method bodies that live
outside the embedded header (ConjunctExpr.cpp, the bit-vector library, the
leaf expression nodes) are modelled from the specification; their doc
comments say so explicitly.
-/

namespace milvus
namespace exec


/-- Modelled from the spec: `TargetBitmapView::inplace_and_with_count`, the
external bit-vector primitive used by `ConjunctElementFunc` (its implementation
is not among the embedded sources).  Per the contract in the specification it
computes `R := R & I` in place and returns the count of bits still set to 1 in
the resulting `R`. -/
def inplace_and_with_count (res_data input_data : List Bool) : List Bool × Nat :=
  (List.zipWith and res_data input_data,
   (List.zipWith and res_data input_data).count true)

/-- Modelled from the spec: `TargetBitmapView::inplace_or_with_count`, the
external bit-vector primitive used by `ConjunctElementFunc` (its implementation
is not among the embedded sources).  Per the contract in the specification it
computes `R := R | I` in place and returns the count of bits still equal to 0
in the resulting `R`. -/
def inplace_or_with_count (res_data input_data : List Bool) : List Bool × Nat :=
  (List.zipWith or res_data input_data,
   (List.zipWith or res_data input_data).count false)

/-- Embedding of `ConjunctElementFunc<is_and>::operator()` from ConjunctExpr.h:
merges the child bitmap `input_result` into the accumulator bitmap `result`
(in the source the accumulator is mutated in place; here the new accumulator is
returned together with the returned live-row count). -/
def ConjunctElementFunc (is_and : Bool) (input_result result : List Bool) :
    List Bool × Nat :=
  if is_and then
    inplace_and_with_count result input_result
  else
    inplace_or_with_count result input_result

/-- Embedding of the per-bit reference loop kept as a comment in the source of
`ConjunctElementFunc::operator()`: walk the rows of `result` once; in AND mode
do `res_data[i] &= input_data[i]` and count the rows left at 1, in OR mode do
`res_data[i] |= input_data[i]` and count the rows left at 0 (`activate_rows`). -/
def conjunctRefLoop (is_and : Bool) : List Bool → List Bool → List Bool × Nat
  | [], _ => ([], 0)
  | _ :: _, [] => ([], 0)
  | r :: rs, i :: ins =>
    let b := if is_and then r && i else r || i
    let rest := conjunctRefLoop is_and rs ins
    (b :: rest.1, (if (if is_and then b else !b) then 1 else 0) + rest.2)

/-- Embedding of the evaluation context: per-batch state threaded through the
recursive evaluate call, carrying the optional pushed-down bitmap-input mask. -/
structure EvalCtx where
  bitmap_input : Option (List Bool)
deriving DecidableEq

/-- Embedding of `PhyConjunctFilterExpr::SetNextExprBitmapInput` from
ConjunctExpr.h: a fresh copy of the accumulator bitmap `vec` is taken, in OR
mode the copy (and only the copy) is flipped, and the copy is installed into
the context as the bitmap input.  The first component returns the accumulator
as the call leaves it (the source never writes through the accumulator view). -/
def SetNextExprBitmapInput (is_and : Bool) (vec : List Bool)
    (context : EvalCtx) : List Bool × EvalCtx :=
  let last_res_bitmap := vec
  let next_input_bitmap := last_res_bitmap
  if is_and then
    (last_res_bitmap, { context with bitmap_input := some next_input_bitmap })
  else
    (last_res_bitmap,
     { context with bitmap_input := some (next_input_bitmap.map not) })

/-- Embedding of `PhyConjunctFilterExpr::ClearBitmapInput` from ConjunctExpr.h. -/
def ClearBitmapInput (context : EvalCtx) : EvalCtx :=
  { context with bitmap_input := none }

/-- Observable treatment of one child during a single evaluate call: it was
evaluated (with the recorded bitmap-input mask, `none` for the first child,
which gets no mask), only cursor-advanced, or skipped entirely. -/
inductive ChildEvent where
  | evaluated (mask : Option (List Bool))
  | cursorAdvanced
  | skipped
deriving DecidableEq

/-- State threaded through one evaluate call of the compound filter node:
accumulator bitmap, evaluation context, skip-remaining flag, and the per-child
event trace. -/
structure EvalState where
  acc : List Bool
  ctx : EvalCtx
  skip : Bool
  events : List ChildEvent
deriving DecidableEq

/-- Number of rows whose final verdict is still undetermined: rows at 1 for
AND, rows at 0 for OR. -/
def liveCount (is_and : Bool) (r : List Bool) : Nat :=
  if is_and then r.count true else r.count false

/-- Modelled from the spec: `PhyConjunctFilterExpr::CanSkipFollowingExprs`
(declared in the embedded header, body in ConjunctExpr.cpp): the remaining
children may be skipped exactly when the live-row count of the accumulator is
zero. -/
def CanSkipFollowingExprs (is_and : Bool) (vec : List Bool) : Bool :=
  liveCount is_and vec == 0

/-- Modelled from the spec: one iteration of step 3 of `evaluate` (body in
ConjunctExpr.cpp).  If the skip flag is set, the child is not evaluated and is
only cursor-advanced (not even that under offset-input mode).  Otherwise the
pushed-down mask is installed into the context, the child is evaluated (its
output bitmap is `child`), the mask is cleared, and the child's result is
merged into the accumulator via `ConjunctElementFunc`; the skip flag is set
when the returned live-row count is zero. -/
def evalStep (is_and has_offset_input : Bool) (s : EvalState)
    (child : List Bool) : EvalState :=
  if s.skip then
    { s with events := s.events ++
        [if has_offset_input then ChildEvent.skipped
         else ChildEvent.cursorAdvanced] }
  else
    let pushed := SetNextExprBitmapInput is_and s.acc s.ctx
    let merged := ConjunctElementFunc is_and child pushed.1
    { acc := merged.1,
      ctx := ClearBitmapInput pushed.2,
      skip := merged.2 == 0,
      events := s.events ++ [ChildEvent.evaluated pushed.2.bitmap_input] }

/-- Modelled from the spec: the loop of `PhyConjunctFilterExpr::Eval` (body in
ConjunctExpr.cpp) after the first child: the first child's bitmap becomes the
accumulator (and its live count already decides the skip flag), then each
subsequent child in the iteration order is processed by `evalStep`. -/
def runConjunct (is_and has_offset_input : Bool) (first : List Bool)
    (rest : List (List Bool)) : EvalState :=
  rest.foldl (evalStep is_and has_offset_input)
    { acc := first,
      ctx := { bitmap_input := none },
      skip := CanSkipFollowingExprs is_and first,
      events := [ChildEvent.evaluated none] }

/-- Modelled from the spec: `PhyConjunctFilterExpr::Eval` (body in
ConjunctExpr.cpp) on a batch.  Children are represented by the bitmaps their
evaluation would produce, listed in the iteration order (the explicit override
order when one is set, declaration order otherwise).  `none` only on an empty
child list. -/
def PhyConjunctEval (is_and has_offset_input : Bool) :
    List (List Bool) → Option EvalState
  | [] => none
  | c :: rest => some (runConjunct is_and has_offset_input c rest)

/-- Merge of a whole child list without any short-circuit: the first child's
bitmap becomes the accumulator and every later child is merged in by
`ConjunctElementFunc`.  This is the verdict `evaluate` computes. -/
def evalMerge (is_and : Bool) : List (List Bool) → Option (List Bool)
  | [] => none
  | c :: rest =>
      some (rest.foldl (fun r i => (ConjunctElementFunc is_and i r).1) c)

/-- Embedding of `PhyConjunctFilterExpr::SupportOffsetInput` from
ConjunctExpr.h: walk the children (each represented by what its own
`SupportOffsetInput` returns) and return false at the first child that does
not support offset input, true if none does. -/
def SupportOffsetInput : List Bool → Bool
  | [] => true
  | input :: rest =>
      if !input then false else SupportOffsetInput rest

/-- Modelled from the spec: a child's advance-cursor advances its internal
row-position tracker by exactly one batch width; a child is represented here
by its batch position. -/
def childMoveCursor (cursor : Nat) : Nat :=
  cursor + 1

/-- Embedding of `PhyConjunctFilterExpr::MoveCursor` from ConjunctExpr.h:
when the node does not operate under offset-input mode the call is forwarded
to every child in declaration order; under offset-input mode nothing happens. -/
def MoveCursor (has_offset_input : Bool) (inputs : List Nat) : List Nat :=
  if !has_offset_input then inputs.map childMoveCursor else inputs

/-- Result-type tags of expression nodes (from common/Types.h, external to the
embedded header; only the boolean tag matters here, the others stand for the
non-boolean types a child may declare). -/
inductive DataType where
  | BOOL
  | INT8
  | INT16
  | INT32
  | INT64
  | FLOAT
  | DOUBLE
  | VARCHAR
deriving DecidableEq

/-- Modelled from the spec: `PhyConjunctFilterExpr::ResolveType` (declared in
the embedded header, body in ConjunctExpr.cpp): validates that every child's
declared result type is boolean, reports a type error otherwise, and yields
boolean as the node's own result type. -/
def ResolveType (inputs : List DataType) : Except String DataType :=
  if inputs.all (fun t => t == DataType.BOOL) then
    Except.ok DataType.BOOL
  else
    Except.error ("ConjunctExpr: all input types must be bool")

/-- Embedding of the `PhyConjunctFilterExpr` node data relevant to
construction: declared result type, the children's declared result types, the
conjunction flag, and the evaluation-order override (empty at construction). -/
structure PhyConjunctFilterExpr where
  type : DataType
  input_types : List DataType
  is_and : Bool
  input_order : List Nat
deriving DecidableEq

/-- Embedding of the `PhyConjunctFilterExpr` constructor from ConjunctExpr.h:
the node declares result type boolean and validates the children's declared
result types through `ResolveType`; a failed validation fails construction and
produces no node. -/
def mkPhyConjunctFilterExpr (inputs : List DataType) (is_and : Bool) :
    Except String PhyConjunctFilterExpr :=
  match ResolveType inputs with
  | Except.ok _ =>
      Except.ok
        { type := DataType.BOOL, input_types := inputs, is_and := is_and,
          input_order := [] }
  | Except.error e => Except.error e

/-- Embedding of the `Join` string helper used by `ToString`. -/
def Join (inputs : List String) (sep : String) : String :=
  String.intercalate sep inputs

/-- Embedding of `PhyConjunctFilterExpr::ToString` from ConjunctExpr.h:
children (represented by their rendered descriptions) are listed in the
explicit evaluation order when one is set, in declaration order otherwise, and
joined with the separator picked by the conjunction flag. -/
def ToString (is_and : Bool) (input_order : List Nat)
    (inputs : List String) : String :=
  if input_order.isEmpty = false then
    let strs := input_order.map (fun i => inputs.getD i (""))
    let input_str := if is_and then Join strs (" && ") else Join strs (" || ")
    ("[ConjuctExpr:") ++ input_str ++ ("]")
  else
    let input_str := if is_and then Join inputs (" && ") else Join inputs ("||")
    ("[ConjuctExpr:") ++ input_str ++ ("]")

/-- Rendering exactly as the specification claim states it: children joined
with the separator " && " in AND mode and " || " in OR mode, listed in the
explicit evaluation order when one is set and in declaration order otherwise. -/
def describeAsClaimed (is_and : Bool) (input_order : List Nat)
    (inputs : List String) : String :=
  let strs :=
    if input_order.isEmpty then inputs
    else input_order.map (fun i => inputs.getD i (""))
  ("[ConjuctExpr:") ++
    (if is_and then Join strs (" && ") else Join strs (" || ")) ++ ("]")

lemma conjunctRefLoop_and :
    ∀ res_data input_data : List Bool,
      res_data.length = input_data.length →
      conjunctRefLoop true res_data input_data =
        (List.zipWith and res_data input_data,
         (List.zipWith and res_data input_data).count true)
  | [], [], _ => by simp [conjunctRefLoop]
  | [], _ :: _, h => by simp at h
  | _ :: _, [], h => by simp at h
  | r :: rs, i :: ins, h => by
    have h' : rs.length = ins.length := by simpa using h
    have ih := conjunctRefLoop_and rs ins h'
    simp only [conjunctRefLoop, ih, List.zipWith_cons_cons, List.count_cons,
      Prod.mk.injEq]
    refine ⟨rfl, ?_⟩
    cases r <;> cases i <;> simp [Nat.add_comm]

lemma conjunctRefLoop_or :
    ∀ res_data input_data : List Bool,
      res_data.length = input_data.length →
      conjunctRefLoop false res_data input_data =
        (List.zipWith or res_data input_data,
         (List.zipWith or res_data input_data).count false)
  | [], [], _ => by simp [conjunctRefLoop]
  | [], _ :: _, h => by simp at h
  | _ :: _, [], h => by simp at h
  | r :: rs, i :: ins, h => by
    have h' : rs.length = ins.length := by simpa using h
    have ih := conjunctRefLoop_or rs ins h'
    simp only [conjunctRefLoop, ih, List.zipWith_cons_cons, List.count_cons,
      Prod.mk.injEq]
    refine ⟨rfl, ?_⟩
    cases r <;> cases i <;> simp [Nat.add_comm]

/-- C9: on equal-length bitmaps, the vectorized merge used by
`ConjunctElementFunc::operator()` (inplace_and_with_count for AND,
inplace_or_with_count for OR, modelled from the spec) produces exactly the same
final accumulator bitmap and the same returned count as the commented-out
per-bit reference loop kept in the source. -/
theorem vectorized_merge_matches_reference_loop (is_and : Bool)
    (res_data input_data : List Bool)
    (h : res_data.length = input_data.length) :
    ConjunctElementFunc is_and input_data res_data =
      conjunctRefLoop is_and res_data input_data := by
  cases is_and
  · simpa [ConjunctElementFunc, inplace_or_with_count] using
      (conjunctRefLoop_or res_data input_data h).symm
  · simpa [ConjunctElementFunc, inplace_and_with_count] using
      (conjunctRefLoop_and res_data input_data h).symm

theorem vectorized_merge_matches_reference_loop_witness :
    ([true, false, true] : List Bool).length =
      ([false, true, true] : List Bool).length ∧
    ConjunctElementFunc true [false, true, true] [true, false, true] =
      conjunctRefLoop true [true, false, true] [false, true, true] :=
  ⟨by decide,
   vectorized_merge_matches_reference_loop true [true, false, true]
     [false, true, true] (by decide)⟩

/-- C1: for equal-length bitmaps, the merge primitive in AND mode replaces the
accumulator `R` with the bitwise AND of `R` and `I` and returns the number of
bits set to 1 in the result; in OR mode it replaces `R` with the bitwise OR and
returns the number of bits equal to 0 in the result. -/
theorem conjunct_element_func_contract (is_and : Bool) (R I : List Bool)
    (h : R.length = I.length) :
    (ConjunctElementFunc is_and I R).1.length = R.length ∧
    (∀ k : Nat,
      (ConjunctElementFunc is_and I R).1[k]? =
        R[k]?.bind fun a =>
          I[k]?.map fun b => if is_and then a && b else a || b) ∧
    (ConjunctElementFunc is_and I R).2 =
      (if is_and then (ConjunctElementFunc is_and I R).1.count true
       else (ConjunctElementFunc is_and I R).1.count false) := by
  cases is_and
  · refine ⟨?_, fun k => ?_, rfl⟩
    · simp [ConjunctElementFunc, inplace_or_with_count, List.length_zipWith, h]
    · simp only [ConjunctElementFunc, inplace_or_with_count, Bool.false_eq_true,
        if_false]
      rw [List.getElem?_zipWith' (f := or)]
      cases R[k]? <;> simp
  · refine ⟨?_, fun k => ?_, rfl⟩
    · simp [ConjunctElementFunc, inplace_and_with_count, List.length_zipWith, h]
    · simp only [ConjunctElementFunc, inplace_and_with_count, if_true]
      rw [List.getElem?_zipWith' (f := and)]
      cases R[k]? <;> simp

theorem conjunct_element_func_contract_witness :
    ([true, true, false] : List Bool).length =
      ([true, false, false] : List Bool).length ∧
    (ConjunctElementFunc true [true, false, false] [true, true, false]).1.length =
      ([true, true, false] : List Bool).length :=
  ⟨by decide,
   (conjunct_element_func_contract true [true, true, false]
     [true, false, false] (by decide)).1⟩

lemma evalStep_of_skip (ia ho : Bool) (s : EvalState) (c : List Bool)
    (h : s.skip = true) :
    evalStep ia ho s c =
      { s with events := s.events ++
          [if ho then ChildEvent.skipped else ChildEvent.cursorAdvanced] } := by
  simp [evalStep, h]

lemma foldl_evalStep_of_skip (ia ho : Bool) :
    ∀ (suf : List (List Bool)) (s : EvalState), s.skip = true →
      List.foldl (evalStep ia ho) s suf =
        { s with events := s.events ++
            suf.map fun _ =>
              if ho then ChildEvent.skipped else ChildEvent.cursorAdvanced }
  | [], s, _ => by simp
  | c :: suf, s, h => by
    rw [List.foldl_cons, evalStep_of_skip ia ho s c h]
    rw [foldl_evalStep_of_skip ia ho suf
      { s with events := s.events ++
          [if ho then ChildEvent.skipped else ChildEvent.cursorAdvanced] } h]
    simp

/-- C2: during one evaluate call, once the live-row count has reached zero the
skip flag is set and every subsequent child in the iteration order is never
evaluated: its event is only a cursor advance, and not even that (no event at
all beyond the skip marker) when offset-input mode is active; the accumulator,
context and skip flag are left untouched by all of them.  The flag is local to
the call: `runConjunct` recomputes it from scratch on every invocation, so the
skip state applies only within that single evaluate call. -/
theorem conjunct_skip_short_circuit (is_and has_offset_input : Bool)
    (first : List Bool) (pre suf : List (List Bool))
    (h : (runConjunct is_and has_offset_input first pre).skip = true) :
    runConjunct is_and has_offset_input first (pre ++ suf) =
      { runConjunct is_and has_offset_input first pre with
        events := (runConjunct is_and has_offset_input first pre).events ++
          suf.map fun _ =>
            if has_offset_input then ChildEvent.skipped
            else ChildEvent.cursorAdvanced } := by
  unfold runConjunct
  rw [List.foldl_append]
  exact foldl_evalStep_of_skip is_and has_offset_input suf _ h

theorem conjunct_skip_short_circuit_witness :
    (runConjunct true false [false, false] [[true, true]]).skip = true ∧
    runConjunct true false [false, false] ([[true, true]] ++ [[true, false]]) =
      { runConjunct true false [false, false] [[true, true]] with
        events :=
          (runConjunct true false [false, false] [[true, true]]).events ++
            [[true, false]].map fun _ => ChildEvent.cursorAdvanced } :=
  ⟨by decide,
   conjunct_skip_short_circuit true false [false, false] [[true, true]]
     [[true, false]] (by decide)⟩

/-- C10: installing the pushed-down mask never modifies the accumulator bitmap:
in both modes `SetNextExprBitmapInput` flips at most the fresh copy it installs
into the context, so the accumulator it hands back is the very bitmap it was
given, bit for bit. -/
theorem set_next_expr_bitmap_input_preserves_accumulator (is_and : Bool)
    (vec : List Bool) (context : EvalCtx) :
    (SetNextExprBitmapInput is_and vec context).1 = vec ∧
    ∀ k : Nat, (SetNextExprBitmapInput is_and vec context).1[k]? = vec[k]? := by
  cases is_and <;> exact ⟨rfl, fun k => rfl⟩

lemma setNextExprBitmapInput_mask (is_and : Bool) (vec : List Bool)
    (context : EvalCtx) :
    (SetNextExprBitmapInput is_and vec context).2.bitmap_input =
      some (if is_and then vec else vec.map not) := by
  cases is_and <;> simp [SetNextExprBitmapInput]

lemma setNextExprBitmapInput_fst (is_and : Bool) (vec : List Bool)
    (context : EvalCtx) :
    (SetNextExprBitmapInput is_and vec context).1 = vec := by
  cases is_and <;> rfl

lemma evalStep_events_of_not_skip (ia ho : Bool) (s : EvalState)
    (c : List Bool) (h : s.skip = false) :
    (evalStep ia ho s c).events =
      s.events ++
        [ChildEvent.evaluated (some (if ia then s.acc else s.acc.map not))] := by
  simp [evalStep, h, setNextExprBitmapInput_mask]

lemma foldl_evalStep_events_length (ia ho : Bool) :
    ∀ (l : List (List Bool)) (s : EvalState),
      (List.foldl (evalStep ia ho) s l).events.length =
        s.events.length + l.length
  | [], s => by simp
  | c :: l, s => by
    rw [List.foldl_cons, foldl_evalStep_events_length ia ho l]
    have hstep : (evalStep ia ho s c).events.length = s.events.length + 1 := by
      cases h : s.skip <;> simp [evalStep, h]
    rw [hstep]
    simp [Nat.add_comm, Nat.add_assoc, Nat.add_left_comm]

lemma runConjunct_events_length (ia ho : Bool) (first : List Bool)
    (rest : List (List Bool)) :
    (runConjunct ia ho first rest).events.length = rest.length + 1 := by
  unfold runConjunct
  rw [foldl_evalStep_events_length]
  simp [Nat.add_comm]

lemma foldl_evalStep_events_prefix (ia ho : Bool) :
    ∀ (l : List (List Bool)) (s : EvalState),
      ∃ t, (List.foldl (evalStep ia ho) s l).events = s.events ++ t
  | [], s => ⟨[], by simp⟩
  | c :: l, s => by
    obtain ⟨t, ht⟩ := foldl_evalStep_events_prefix ia ho l (evalStep ia ho s c)
    cases h : s.skip with
    | true =>
        exact ⟨[if ho then ChildEvent.skipped else ChildEvent.cursorAdvanced] ++ t,
          by rw [List.foldl_cons, ht, evalStep_of_skip ia ho s c h]; simp⟩
    | false =>
        exact ⟨[ChildEvent.evaluated
            (some (if ia then s.acc else s.acc.map not))] ++ t,
          by rw [List.foldl_cons, ht, evalStep_events_of_not_skip ia ho s c h]
             simp⟩

/-- C4: whenever child `k + 1` of the iteration order (a child merged into the
accumulator, i.e. the skip flag is still clear when it is reached) is
evaluated, the pushed-down bitmap-input mask installed into the evaluation
context for it equals the accumulator `R` built over the previous children
when the node is in AND mode, and the bitwise complement of that accumulator
in OR mode. -/
theorem conjunct_mask_pushdown (is_and has_offset_input : Bool)
    (first : List Bool) (rest : List (List Bool)) (k : Nat)
    (hk : k < rest.length)
    (hskip :
      (runConjunct is_and has_offset_input first (rest.take k)).skip = false) :
    (runConjunct is_and has_offset_input first rest).events[k + 1]? =
      some (ChildEvent.evaluated (some
        (if is_and then
           (runConjunct is_and has_offset_input first (rest.take k)).acc
         else
           (runConjunct is_and has_offset_input first
             (rest.take k)).acc.map not))) := by
  have hsplit :
      runConjunct is_and has_offset_input first rest =
        List.foldl (evalStep is_and has_offset_input)
          (evalStep is_and has_offset_input
            (runConjunct is_and has_offset_input first (rest.take k))
            (rest.get ⟨k, hk⟩))
          (rest.drop (k + 1)) := by
    conv_lhs => rw [show rest = rest.take k ++ rest.drop k from
      (List.take_append_drop k rest).symm]
    unfold runConjunct
    rw [List.foldl_append, List.drop_eq_getElem_cons hk, List.foldl_cons]
    rfl
  obtain ⟨t, ht⟩ := foldl_evalStep_events_prefix is_and has_offset_input
    (rest.drop (k + 1))
    (evalStep is_and has_offset_input
      (runConjunct is_and has_offset_input first (rest.take k))
      (rest.get ⟨k, hk⟩))
  have hlen :
      (runConjunct is_and has_offset_input first (rest.take k)).events.length =
        k + 1 := by
    rw [runConjunct_events_length]
    simp [Nat.min_eq_left (Nat.le_of_lt hk)]
  rw [hsplit, ht,
    evalStep_events_of_not_skip is_and has_offset_input _ _ hskip,
    List.append_assoc, List.getElem?_append_right (by rw [hlen]),
    hlen]
  simp

theorem conjunct_mask_pushdown_witness :
    (runConjunct true false [true, false]
        (([[true, true]] : List (List Bool)).take 0)).skip = false ∧
    (runConjunct true false [true, false] [[true, true]]).events[0 + 1]? =
      some (ChildEvent.evaluated (some
        (if true then
           (runConjunct true false [true, false]
             (([[true, true]] : List (List Bool)).take 0)).acc
         else
           (runConjunct true false [true, false]
             (([[true, true]] : List (List Bool)).take 0)).acc.map not))) :=
  ⟨by decide,
   conjunct_mask_pushdown true false [true, false] [[true, true]] 0
     (by decide) (by decide)⟩

lemma conjunctElementFunc_fst (ia : Bool) (i r : List Bool) :
    (ConjunctElementFunc ia i r).1 =
      if ia then List.zipWith and r i else List.zipWith or r i := by
  cases ia <;> rfl

lemma conjunctElementFunc_snd_liveCount (ia : Bool) (i r : List Bool) :
    (ConjunctElementFunc ia i r).2 =
      liveCount ia (ConjunctElementFunc ia i r).1 := by
  cases ia <;> rfl

lemma conjunctElementFunc_length (ia : Bool) (i r : List Bool) :
    (ConjunctElementFunc ia i r).1.length = min r.length i.length := by
  cases ia <;> simp [ConjunctElementFunc, inplace_and_with_count,
    inplace_or_with_count]

lemma zipWith_bool_right_comm (g : Bool → Bool → Bool)
    (hg : ∀ x y z : Bool, g (g x y) z = g (g x z) y) (z x y : List Bool) :
    List.zipWith g (List.zipWith g z x) y =
      List.zipWith g (List.zipWith g z y) x := by
  apply List.ext_getElem?
  intro k
  simp only [List.getElem?_zipWith' (f := g)]
  cases z[k]? <;> cases x[k]? <;> cases y[k]? <;> simp [hg]

lemma zipWith_ident_replicate (g : Bool → Bool → Bool) (e : Bool)
    (he : ∀ b : Bool, g e b = b) :
    ∀ c : List Bool, List.zipWith g (List.replicate c.length e) c = c
  | [] => rfl
  | b :: bs => by
    simp only [List.length_cons, List.replicate_succ, List.zipWith_cons_cons,
      he, zipWith_ident_replicate g e he bs]

lemma conjunct_step_right_comm (ia : Bool) (z x y : List Bool) :
    (ConjunctElementFunc ia y (ConjunctElementFunc ia x z).1).1 =
      (ConjunctElementFunc ia x (ConjunctElementFunc ia y z).1).1 := by
  cases ia <;>
    simp only [conjunctElementFunc_fst, if_true, if_false,
      Bool.false_eq_true] <;>
    [exact zipWith_bool_right_comm or Bool.or_right_comm z x y;
     exact zipWith_bool_right_comm and Bool.and_right_comm z x y]

lemma conjunct_step_ident (ia : Bool) (n : Nat) (c : List Bool)
    (hc : c.length = n) :
    (ConjunctElementFunc ia c (List.replicate n ia)).1 = c := by
  subst hc
  cases ia
  · simpa using zipWith_ident_replicate or false (by simp) c
  · simpa using zipWith_ident_replicate and true (by simp) c

lemma evalMerge_perm (ia : Bool) (n : Nat) :
    ∀ l l2 : List (List Bool), l.Perm l2 → (∀ c ∈ l, c.length = n) →
      evalMerge ia l = evalMerge ia l2
  | [], l2, hp, _ => by rw [List.nil_perm.mp hp]
  | c :: rest, [], hp, _ => absurd hp.eq_nil (by simp)
  | c :: rest, c2 :: rest2, hp, hn => by
    have hn2 : ∀ x ∈ c2 :: rest2, x.length = n := fun x hx =>
      hn x (hp.mem_iff.mpr hx)
    have comm : ∀ x ∈ c :: rest, ∀ y ∈ c :: rest, ∀ z : List Bool,
        (ConjunctElementFunc ia y (ConjunctElementFunc ia x z).1).1 =
          (ConjunctElementFunc ia x (ConjunctElementFunc ia y z).1).1 :=
      fun x _ y _ z => conjunct_step_right_comm ia z x y
    have h1 := hp.foldl_eq' (f := fun r i => (ConjunctElementFunc ia i r).1)
      comm (List.replicate n ia)
    simp only [evalMerge, Option.some.injEq]
    calc
      List.foldl (fun r i => (ConjunctElementFunc ia i r).1) c rest =
          List.foldl (fun r i => (ConjunctElementFunc ia i r).1)
            (List.replicate n ia) (c :: rest) := by
        rw [List.foldl_cons, conjunct_step_ident ia n c (hn c (by simp))]
      _ = List.foldl (fun r i => (ConjunctElementFunc ia i r).1)
            (List.replicate n ia) (c2 :: rest2) := h1
      _ = List.foldl (fun r i => (ConjunctElementFunc ia i r).1) c2 rest2 := by
        rw [List.foldl_cons, conjunct_step_ident ia n c2 (hn2 c2 (by simp))]

lemma zipWith_absorb_left (g : Bool → Bool → Bool) (e : Bool)
    (hg : ∀ b : Bool, g e b = e) :
    ∀ r c : List Bool, r.length ≤ c.length → (∀ b ∈ r, b = e) →
      List.zipWith g r c = r
  | [], _, _, _ => by simp
  | a :: rs, [], h, _ => by simp at h
  | a :: rs, b :: cs, h, hall => by
    have ha : a = e := hall a (by simp)
    have hrest := zipWith_absorb_left g e hg rs cs (by simpa using h)
      (fun x hx => hall x (List.mem_cons_of_mem a hx))
    simp [ha, hg, hrest]

lemma conjunct_absorb_of_liveCount_zero (ia : Bool) (r c : List Bool)
    (hlen : r.length ≤ c.length) (h : liveCount ia r = 0) :
    (ConjunctElementFunc ia c r).1 = r := by
  cases ia
  · have hmem : ∀ b ∈ r, b = true := by
      intro b hb
      cases b
      · exact absurd h (by
          simp only [liveCount, Bool.false_eq_true, if_false]
          exact fun hc => (List.count_eq_zero.mp hc) hb)
      · rfl
    simpa only [conjunctElementFunc_fst, Bool.false_eq_true, if_false] using
      zipWith_absorb_left or true (by simp) r c hlen hmem
  · have hmem : ∀ b ∈ r, b = false := by
      intro b hb
      cases b
      · rfl
      · exact absurd h (by
          simp only [liveCount, if_true]
          exact fun hc => (List.count_eq_zero.mp hc) hb)
    simpa only [conjunctElementFunc_fst, if_true] using
      zipWith_absorb_left and false (by simp) r c hlen hmem

lemma runConjunct_acc_foldl (ia ho : Bool) (n : Nat) :
    ∀ (rest : List (List Bool)) (s : EvalState),
      s.acc.length = n → (∀ c ∈ rest, c.length = n) →
      (s.skip = true → liveCount ia s.acc = 0) →
      (List.foldl (evalStep ia ho) s rest).acc =
        rest.foldl (fun r i => (ConjunctElementFunc ia i r).1) s.acc
  | [], s, _, _, _ => rfl
  | c :: rest, s, hacc, hn, hskip => by
    have hcn : c.length = n := hn c (by simp)
    have hrest : ∀ x ∈ rest, x.length = n := fun x hx =>
      hn x (List.mem_cons_of_mem c hx)
    cases hs : s.skip with
    | true =>
        have habs : (ConjunctElementFunc ia c s.acc).1 = s.acc :=
          conjunct_absorb_of_liveCount_zero ia s.acc c
            (by rw [hacc, hcn]) (hskip hs)
        have ih := runConjunct_acc_foldl ia ho n rest
          { s with events := s.events ++
              [if ho then ChildEvent.skipped else ChildEvent.cursorAdvanced] }
          hacc hrest (fun _ => hskip hs)
        rw [List.foldl_cons, List.foldl_cons, evalStep_of_skip ia ho s c hs,
          ih, habs]
    | false =>
        have hstate_acc : (evalStep ia ho s c).acc =
            (ConjunctElementFunc ia c s.acc).1 := by
          simp [evalStep, hs, setNextExprBitmapInput_fst]
        have hstate_skip : (evalStep ia ho s c).skip = true →
            liveCount ia (evalStep ia ho s c).acc = 0 := by
          intro hsk
          have h2 : (evalStep ia ho s c).skip =
              ((ConjunctElementFunc ia c s.acc).2 == 0) := by
            simp [evalStep, hs, setNextExprBitmapInput_fst]
          rw [h2, beq_iff_eq, conjunctElementFunc_snd_liveCount] at hsk
          rw [hstate_acc]
          exact hsk
        have hlen : (evalStep ia ho s c).acc.length = n := by
          rw [hstate_acc, conjunctElementFunc_length, hacc, hcn]
          simp
        have ih := runConjunct_acc_foldl ia ho n rest (evalStep ia ho s c)
          hlen hrest hstate_skip
        rw [List.foldl_cons, List.foldl_cons, ih, hstate_acc]

/-- C3: for a fixed set of equal-length children bitmaps and a fixed mode, the
final accumulator bitmap produced by the evaluate call (including its
short-circuit skipping) is the same for every permutation of the evaluation
order: the bitwise merge is commutative and associative, and a zero live-row
count makes the accumulator absorbing, so skipped merges cannot change it. -/
theorem conjunct_verdict_order_independent (is_and has_offset_input : Bool)
    (n : Nat) (l l2 : List (List Bool)) (hp : l.Perm l2)
    (hn : ∀ c ∈ l, c.length = n) :
    (PhyConjunctEval is_and has_offset_input l).map EvalState.acc =
      (PhyConjunctEval is_and has_offset_input l2).map EvalState.acc := by
  have hn2 : ∀ c ∈ l2, c.length = n := fun c hc => hn c (hp.mem_iff.mpr hc)
  have key : ∀ m : List (List Bool), (∀ c ∈ m, c.length = n) →
      (PhyConjunctEval is_and has_offset_input m).map EvalState.acc =
        evalMerge is_and m := by
    intro m hm
    cases m with
    | nil => rfl
    | cons c rest =>
        simp only [PhyConjunctEval, Option.map_some, evalMerge,
          Option.some.injEq]
        unfold runConjunct
        exact congrArg some <| runConjunct_acc_foldl is_and has_offset_input n rest
          { acc := c, ctx := { bitmap_input := none },
            skip := CanSkipFollowingExprs is_and c,
            events := [ChildEvent.evaluated none] }
          (hm c (by simp))
          (fun x hx => hm x (List.mem_cons_of_mem c hx))
          (by
            intro hsk
            have h0 : CanSkipFollowingExprs is_and c = true := hsk
            simpa [CanSkipFollowingExprs, beq_iff_eq] using h0)
  rw [key l hn, key l2 hn2]
  exact evalMerge_perm is_and n l l2 hp hn

theorem conjunct_verdict_order_independent_witness :
    ([[true, false], [false, false]] : List (List Bool)).Perm
      [[false, false], [true, false]] ∧
    (PhyConjunctEval true false [[true, false], [false, false]]).map
        EvalState.acc =
      (PhyConjunctEval true false [[false, false], [true, false]]).map
        EvalState.acc :=
  ⟨by decide,
   conjunct_verdict_order_independent true false 2
     [[true, false], [false, false]] [[false, false], [true, false]]
     (by decide) (by decide)⟩

/-- C5: supports-offset-input on the compound filter node returns true if and
only if it returns true for every child of the node. -/
theorem support_offset_input_iff_all_children (inputs : List Bool) :
    SupportOffsetInput inputs = true ↔ ∀ input ∈ inputs, input = true := by
  induction inputs with
  | nil => simp [SupportOffsetInput]
  | cons c cs ih => cases c <;> simp [SupportOffsetInput, ih]

/-- C6: without offset-input mode, advance-cursor forwards the call to every
child exactly once in declaration order (every child's cursor grows by exactly
one batch, no child is dropped or duplicated); with offset-input mode active
it is a no-op and no child's cursor is advanced. -/
theorem move_cursor_protocol (has_offset_input : Bool) (inputs : List Nat) :
    (has_offset_input = false →
      (MoveCursor has_offset_input inputs).length = inputs.length ∧
      ∀ k : Nat, (MoveCursor has_offset_input inputs)[k]? =
        inputs[k]?.map (· + 1)) ∧
    (has_offset_input = true →
      MoveCursor has_offset_input inputs = inputs) := by
  constructor
  · rintro rfl
    refine ⟨by simp [MoveCursor], fun k => ?_⟩
    simp only [MoveCursor, Bool.not_false, if_true, List.getElem?_map]
    cases inputs[k]? <;> rfl
  · rintro rfl
    simp [MoveCursor]

theorem move_cursor_protocol_witness :
    (MoveCursor false [0, 5]).length = ([0, 5] : List Nat).length ∧
    MoveCursor true [0, 5] = [0, 5] :=
  ⟨((move_cursor_protocol false [0, 5]).1 rfl).1,
   (move_cursor_protocol true [0, 5]).2 rfl⟩

/-- C7: constructing a compound filter node succeeds exactly when every child's
declared result type is boolean, and then the node's own result type is
boolean; with any non-boolean child, construction reports a type error and
produces no node. -/
theorem conjunct_construction_type_check (inputs : List DataType)
    (is_and : Bool) :
    ((∀ t ∈ inputs, t = DataType.BOOL) →
      ∃ node, mkPhyConjunctFilterExpr inputs is_and = Except.ok node ∧
        node.type = DataType.BOOL) ∧
    ((∃ t ∈ inputs, t ≠ DataType.BOOL) →
      ∃ e, mkPhyConjunctFilterExpr inputs is_and = Except.error e) := by
  constructor
  · intro h
    have hall : inputs.all (fun t => t == DataType.BOOL) = true := by
      rw [List.all_eq_true]
      intro t ht
      simpa using h t ht
    exact ⟨{ type := DataType.BOOL, input_types := inputs, is_and := is_and,
             input_order := [] },
      by simp [mkPhyConjunctFilterExpr, ResolveType, hall], rfl⟩
  · rintro ⟨t, ht, hne⟩
    have hall : inputs.all (fun x => x == DataType.BOOL) = false := by
      cases hcase : inputs.all (fun x => x == DataType.BOOL) with
      | false => rfl
      | true =>
          exact absurd (by simpa using List.all_eq_true.mp hcase t ht) hne
    exact ⟨("ConjunctExpr: all input types must be bool"),
      by simp [mkPhyConjunctFilterExpr, ResolveType, hall]⟩

theorem conjunct_construction_type_check_witness :
    (∃ node,
        mkPhyConjunctFilterExpr [DataType.BOOL, DataType.BOOL] true =
          Except.ok node ∧ node.type = DataType.BOOL) ∧
    (∃ e,
        mkPhyConjunctFilterExpr [DataType.BOOL, DataType.INT64] false =
          Except.error e) :=
  ⟨(conjunct_construction_type_check [DataType.BOOL, DataType.BOOL] true).1
      (by decide),
   (conjunct_construction_type_check [DataType.BOOL, DataType.INT64] false).2
      ⟨DataType.INT64, by decide, by decide⟩⟩

/-- C8 counterexample: in OR mode with no explicit evaluation order the source
joins the children with "||" and not with " || " as the claim states, so on
two children described "a" and "b" the rendered strings differ. -/
theorem to_string_or_separator_counterexample :
    ToString false [] ["a", "b"] ≠ describeAsClaimed false [] ["a", "b"] := by
  decide

/-- C8 amended: describe joins the children's descriptions with " && " in AND
mode; in OR mode the separator is " || " when an explicit evaluation order has
been set but "||" (no surrounding spaces) in declaration order; children are
listed in the explicit evaluation order when one is set and in declaration
order otherwise. -/
theorem to_string_renders_infix (is_and : Bool) (input_order : List Nat)
    (inputs : List String) :
    ToString is_and input_order inputs =
      ("[ConjuctExpr:") ++
        String.intercalate
          (if is_and then (" && ")
           else if input_order.isEmpty then ("||") else (" || "))
          (if input_order.isEmpty then inputs
           else input_order.map (fun i => inputs.getD i (""))) ++ ("]") := by
  cases is_and <;> cases input_order <;> simp [ToString, Join]

end exec
end milvus
